import Mathlib

/-!
Verification of the streaming FIR filter (`pysdr/filters.py`) and the
receive-loop overflow accounting (`usrp_qt5_app.py`, `benchmark_rx_rate`)
against their natural-language specification.

The numeric samples of the Python code (numpy float64 / complex128) are
modelled with exact arithmetic over a commutative ring; machine reals are
replaced by `ℤ` / `ℚ`, complex samples by the Gaussian integers `Zsqrtd (-1)`.
Fallible numpy operations (empty-input convolution, slice-assignment shape
errors) are modelled with `Option`.
-/

set_option autoImplicit false

namespace PySdr

variable {α : Type} [CommRing α]

/-- Dot product of a window `w` against the reversed kernel `v`:
the contribution of one output point of a correlation-style convolution,
`(w ⋆ v)ₖ = Σⱼ w(j) · v(|v| - 1 - j)`. -/
def winDot (w v : List α) : α :=
  (w.zipWith (· * ·) v.reverse).sum

/-- Valid-mode convolution for `|a| ≥ |v|`: output point `k` is the window of
`a` starting at `k` (length `|v|`) dotted with the reversed kernel.  This is
the standard formula behind numpy convolve with mode valid when the first
argument is the longer one. -/
def convValidLS (a v : List α) : List α :=
  (List.range (a.length - v.length + 1)).map fun k =>
    winDot ((a.drop k).take v.length) v

/-- Model of numpy convolve with mode valid: full convolution is symmetric in
its two arguments, so valid mode computes the fully-overlapping points of the
longer argument against the shorter one. -/
def convValid (a v : List α) : List α :=
  if a.length < v.length then convValidLS v a else convValidLS a v

/-- Python negative-index slice `x[-k:]`: for `k = 0` this is the whole list
(Python `x[-0:] = x[0:]`), otherwise the last `min k |x|` elements. -/
def negTail (x : List α) (k : ℕ) : List α :=
  if k = 0 then x else x.drop (x.length - k)

/-- Numpy slice assignment `dst[:] = rhs` on one-dimensional arrays: succeeds
when the shapes agree, broadcasts a length-1 right-hand side across `dst`
(this is the silent path behind the FIXME in the source), and otherwise raises
a shape error, modelled as `none`. -/
def sliceAssign (dst rhs : List α) : Option (List α) :=
  if rhs.length = dst.length then some rhs
  else if rhs.length = 1 then some (List.replicate dst.length (rhs.headD 0))
  else none

/-- The streaming FIR filter of `pysdr/filters.py`: the taps and the retained
tail of the previously fed batch (`self.previous_batch`). -/
structure fir_filter (α : Type) where
  taps : List α
  previous_batch : List α
  deriving DecidableEq

/-- Constructor `fir_filter(taps)`: `np.zeros(len(taps) - 1)` raises for an
empty tap list (negative size), otherwise the state starts as silence. -/
def fir_filter.init (taps : List α) : Option (fir_filter α) :=
  if taps.length = 0 then none
  else some ⟨taps, List.replicate (taps.length - 1) 0⟩

/-- One call of `fir_filter.filter(x)`: convolve the retained state followed
by the batch with the taps in valid mode, then overwrite the state with the
slice `x[-(N-1):]`.  `none` models the numpy exceptions (empty convolution
input, mismatched slice assignment), on which the state is not mutated. -/
def fir_filter.filter (f : fir_filter α) (x : List α) :
    Option (List α × fir_filter α) :=
  if (f.previous_batch ++ x).length = 0 ∨ f.taps.length = 0 then none
  else
    match sliceAssign f.previous_batch (negTail x (f.taps.length - 1)) with
    | some s => some (convValid (f.previous_batch ++ x) f.taps, ⟨f.taps, s⟩)
    | none => none

/-- Feed a list of batches through the filter in order, concatenating the
per-batch outputs, exactly as the unit test at the bottom of
`pysdr/filters.py` does; fails if any single call fails. -/
def fir_filter.run (f : fir_filter α) : List (List α) → Option (List α × fir_filter α)
  | [] => some ([], f)
  | x :: bs =>
    match f.filter x with
    | some (y, f1) =>
      match f1.run bs with
      | some (ys, f2) => some (y ++ ys, f2)
      | none => none
    | none => none

/-! ## Receive-loop accounting (`benchmark_rx_rate` in `usrp_qt5_app.py`)

One iteration of the receive loop is modelled as a pure step on the local
counter variables.  The inputs of an iteration are the fields of the UHD
`RXMetadata` object together with the sample count returned by `recv`
(already multiplied by the number of channels, as on line 83 of the source).
Timestamps (`TimeSpec.get_real_secs`) are modelled as rationals. -/

/-- The error codes of `uhd.types.RXMetadataErrorCode` that the loop
distinguishes; `other` stands for every code that reaches the final else
branch (the Unknown status of the spec). -/
inductive RxError : Type
  | none
  | overflow
  | late
  | timeout
  | other
  deriving DecidableEq

/-- The per-iteration inputs: the recv sample count (times channel count) and
the metadata fields read by the loop. -/
structure RxObs where
  nrecv : ℕ
  error_code : RxError
  out_of_sequence : Bool
  time_spec : ℚ
  deriving DecidableEq

/-- The local variables of `benchmark_rx_rate` that the error handling
mutates. -/
structure RxState where
  had_an_overflow : Bool
  last_overflow : ℚ
  num_rx_samps : ℕ
  num_rx_dropped : ℤ
  num_rx_overruns : ℕ
  num_rx_seqerr : ℕ
  num_rx_timeouts : ℕ
  num_rx_late : ℕ
  deriving DecidableEq

/-- Initial values of the loop variables (`TimeSpec(0)` and zeroed
counters). -/
def initRxState : RxState :=
  { had_an_overflow := false
    last_overflow := 0
    num_rx_samps := 0
    num_rx_dropped := 0
    num_rx_overruns := 0
    num_rx_seqerr := 0
    num_rx_timeouts := 0
    num_rx_late := 0 }

/-- Model of `uhd.types.TimeSpec(secs).to_ticks(rate)`: elapsed seconds times
the tick rate, rounded to the nearest integer. -/
def to_ticks (secs rate : ℚ) : ℤ := round (secs * rate)

/-- One iteration of the receive loop: `num_rx_samps` is increased by the
recv result unconditionally (line 83), then the metadata error code is
dispatched exactly as in lines 108-138 of the source.  The plotting block is
visualization and touches none of these variables. -/
def rxStep (rate : ℚ) (st : RxState) (o : RxObs) : RxState :=
  let s1 : RxState := { st with num_rx_samps := st.num_rx_samps + o.nrecv }
  match o.error_code with
  | RxError.none =>
    if s1.had_an_overflow then
      { s1 with
        had_an_overflow := false
        num_rx_dropped :=
          s1.num_rx_dropped + to_ticks (o.time_spec - s1.last_overflow) rate }
    else s1
  | RxError.overflow =>
    if o.out_of_sequence then
      { s1 with
        had_an_overflow := true
        last_overflow := o.time_spec
        num_rx_seqerr := s1.num_rx_seqerr + 1 }
    else
      { s1 with
        had_an_overflow := true
        last_overflow := o.time_spec
        num_rx_overruns := s1.num_rx_overruns + 1 }
  | RxError.late => { s1 with num_rx_late := s1.num_rx_late + 1 }
  | RxError.timeout => { s1 with num_rx_timeouts := s1.num_rx_timeouts + 1 }
  | RxError.other => s1

/-- Folding a whole sequence of loop iterations. -/
def rxRun (rate : ℚ) (st : RxState) (obs : List RxObs) : RxState :=
  obs.foldl (rxStep rate) st

/-- The statistics record written into the shared `rx_statistics` dictionary
after the loop (lines 140-146 of the source): six counters, published
together. -/
structure RxStatistics where
  num_rx_samps : ℕ
  num_rx_dropped : ℤ
  num_rx_overruns : ℕ
  num_rx_seqerr : ℕ
  num_rx_timeouts : ℕ
  num_rx_late : ℕ
  deriving DecidableEq

/-- The block of six dictionary writes at the end of `benchmark_rx_rate`. -/
def publishStats (st : RxState) : RxStatistics :=
  { num_rx_samps := st.num_rx_samps
    num_rx_dropped := st.num_rx_dropped
    num_rx_overruns := st.num_rx_overruns
    num_rx_seqerr := st.num_rx_seqerr
    num_rx_timeouts := st.num_rx_timeouts
    num_rx_late := st.num_rx_late }

/-- Net effect of the whole `benchmark_rx_rate` call on the statistics it
returns, given the iterations the loop performs before the stop event. -/
def benchmark_rx_rate (rate : ℚ) (obs : List RxObs) : RxStatistics :=
  publishStats (rxRun rate initRxState obs)

/-- Small-step view of `benchmark_rx_rate` for the temporal claim: the local
state, the iterations still to come before `timer_elapsed_event` is observed
set, and the shared `rx_statistics` dictionary (`Option.none` models the
empty dictionary created by `main`). -/
structure BenchRun where
  st : RxState
  pending : List RxObs
  rx_statistics : Option RxStatistics
  deriving DecidableEq

/-- The thread starts with fresh local counters, the iterations the loop
will run, and an empty shared dictionary. -/
def benchInit (obs : List RxObs) : BenchRun :=
  { st := initRxState, pending := obs, rx_statistics := Option.none }

/-- One scheduling step of the receive thread: while the stop event is unset
it runs one loop iteration, which never touches `rx_statistics`; once the
loop exits it publishes all six counters in a single block. -/
def benchStep (rate : ℚ) (b : BenchRun) : BenchRun :=
  match b.pending with
  | o :: rest => { b with st := rxStep rate b.st o, pending := rest }
  | [] =>
    if b.rx_statistics.isNone then
      { b with rx_statistics := some (publishStats b.st) }
    else b

/-! ## Complex samples against the real-valued state array

In the source, `self.previous_batch = np.zeros(len(taps) - 1)` is a float64
array no matter what is later fed to the filter.  When a complex batch is
filtered, the convolution upcasts, but the slice assignment into the state
array casts complex values to real (numpy emits a ComplexWarning and keeps
only the real part).  Complex samples are modelled exactly by the Gaussian
integers; the real-valued state array holds plain integers. -/

/-- Embedding of a real state sample into the complex sample type. -/
def cxOfReal (r : ℤ) : GaussianInt := ⟨r, 0⟩

/-- The streaming filter as it behaves on complex samples: the taps and the
batches are complex, but the retained state array is real-valued, exactly as
the float64 `np.zeros` buffer of the source. -/
structure fir_filterC where
  taps : List GaussianInt
  previous_batch : List ℤ
  deriving DecidableEq

/-- Numpy slice assignment of complex values into a real array: same shape
rules as `sliceAssign`, but each stored value keeps only its real part
(ComplexWarning, not an error). -/
def sliceAssignC (dst : List ℤ) (rhs : List GaussianInt) : Option (List ℤ) :=
  if rhs.length = dst.length then some (rhs.map Zsqrtd.re)
  else if rhs.length = 1 then some (List.replicate dst.length (rhs.headD 0).re)
  else none

/-- One `filter` call on a complex batch: identical to `fir_filter.filter`
except that the state buffer is the real-valued array. -/
def fir_filterC.filter (f : fir_filterC) (x : List GaussianInt) :
    Option (List GaussianInt × fir_filterC) :=
  if (f.previous_batch.map cxOfReal ++ x).length = 0 ∨ f.taps.length = 0 then none
  else
    match sliceAssignC f.previous_batch (negTail x (f.taps.length - 1)) with
    | some s => some (convValid (f.previous_batch.map cxOfReal ++ x) f.taps, ⟨f.taps, s⟩)
    | none => none

/-- Batch-by-batch run of the complex-sample filter. -/
def fir_filterC.run (f : fir_filterC) :
    List (List GaussianInt) → Option (List GaussianInt × fir_filterC)
  | [] => some ([], f)
  | x :: bs =>
    match f.filter x with
    | some (y, f1) =>
      match fir_filterC.run f1 bs with
      | some (ys, f2) => some (y ++ ys, f2)
      | none => none
    | none => none

/-- Pointwise comparison of the six statistic counters of two loop states. -/
def rxCountersLE (a b : RxState) : Prop :=
  a.num_rx_samps ≤ b.num_rx_samps ∧ a.num_rx_dropped ≤ b.num_rx_dropped ∧
  a.num_rx_overruns ≤ b.num_rx_overruns ∧ a.num_rx_seqerr ≤ b.num_rx_seqerr ∧
  a.num_rx_timeouts ≤ b.num_rx_timeouts ∧ a.num_rx_late ≤ b.num_rx_late

/-! ## Convolution and streaming lemmas -/

theorem length_convValidLS (a v : List α) :
    (convValidLS a v).length = a.length - v.length + 1 := by
  simp [convValidLS]

theorem getElem_convValidLS (a v : List α) (k : ℕ)
    (h : k < (convValidLS a v).length) :
    (convValidLS a v)[k] = winDot ((a.drop k).take v.length) v := by
  simp [convValidLS]

omit [CommRing α] in
theorem window_append (a r : List α) (k n : ℕ) (h : k + n ≤ a.length) :
    ((a ++ r).drop k).take n = (a.drop k).take n := by
  rw [List.drop_append_of_le_length (by omega),
    List.take_append_of_le_length (by simp; omega)]

theorem convValidLS_append (a r v : List α) (hv : 1 ≤ v.length)
    (ha : v.length ≤ a.length) (hr : 1 ≤ r.length) :
    convValidLS (a ++ r) v
      = convValidLS a v
          ++ convValidLS (a.drop (a.length - (v.length - 1)) ++ r) v := by
  apply List.ext_getElem
  · simp [length_convValidLS]
    omega
  · intro n h1 h2
    rw [getElem_convValidLS]
    by_cases hn : n < (convValidLS a v).length
    · rw [List.getElem_append_left hn, getElem_convValidLS]
      have hwin : ((a ++ r).drop n).take v.length = (a.drop n).take v.length := by
        apply window_append
        rw [length_convValidLS] at hn
        omega
      rw [hwin]
    · rw [List.getElem_append_right (by omega)]
      rw [getElem_convValidLS]
      have hc : a.length - (v.length - 1) ≤ a.length := by omega
      have e1 : List.drop (n - (convValidLS a v).length)
            (List.drop (a.length - (v.length - 1)) a ++ r)
          = List.drop n (a ++ r) := by
        rw [← List.drop_append_of_le_length hc, List.drop_drop]
        congr 1
        rw [length_convValidLS] at hn
        rw [length_convValidLS]
        omega
      rw [e1]

theorem filter_of_le (taps s x : List α) (hN : 2 ≤ taps.length)
    (hs : s.length = taps.length - 1) (hx : taps.length - 1 ≤ x.length) :
    fir_filter.filter ⟨taps, s⟩ x
      = some (convValidLS (s ++ x) taps,
              ⟨taps, x.drop (x.length - (taps.length - 1))⟩) := by
  unfold fir_filter.filter
  dsimp only
  rw [if_neg (by rw [List.length_append]; omega)]
  have hneg : negTail x (taps.length - 1) = x.drop (x.length - (taps.length - 1)) := by
    unfold negTail
    rw [if_neg (by omega)]
  have hassign : sliceAssign s (negTail x (taps.length - 1))
      = some (x.drop (x.length - (taps.length - 1))) := by
    rw [hneg]
    unfold sliceAssign
    rw [if_pos (by rw [List.length_drop, hs]; omega)]
  simp only [hassign]
  have hcv : convValid (s ++ x) taps = convValidLS (s ++ x) taps := by
    unfold convValid
    rw [if_neg (by rw [List.length_append]; omega)]
  rw [hcv]

omit [CommRing α] in
theorem drop_state_append (s x : List α) (n1 : ℕ) (hs : s.length = n1)
    (hx : n1 ≤ x.length) :
    (s ++ x).drop ((s ++ x).length - n1) = x.drop (x.length - n1) := by
  have h : (s ++ x).length - n1 = s.length + (x.length - n1) := by simp; omega
  rw [h, List.drop_append]

theorem fir_run_eq (taps : List α) (hN : 2 ≤ taps.length) :
    ∀ (bs : List (List α)) (s : List α), s.length = taps.length - 1 →
      (∀ b ∈ bs, taps.length - 1 ≤ b.length) →
      fir_filter.run ⟨taps, s⟩ bs
        = some ((convValidLS (s ++ bs.flatten) taps).take bs.flatten.length,
                ⟨taps, (s ++ bs.flatten).drop ((s ++ bs.flatten).length - (taps.length - 1))⟩) := by
  intro bs
  induction bs with
  | nil =>
    intro s hs _
    have h0 : s.length - (taps.length - 1) = 0 := by omega
    simp [fir_filter.run, h0]
  | cons x bs ih =>
    intro s hs hb
    have hx : taps.length - 1 ≤ x.length := hb x (by simp)
    have hx1 : 1 ≤ x.length := by omega
    have hb2 : ∀ b ∈ bs, taps.length - 1 ≤ b.length := fun b h => hb b (by simp [h])
    have hs2 : (x.drop (x.length - (taps.length - 1))).length = taps.length - 1 := by
      rw [List.length_drop]; omega
    simp only [fir_filter.run]
    rw [filter_of_le taps s x hN hs hx]
    dsimp only
    rw [ih (x.drop (x.length - (taps.length - 1))) hs2 hb2]
    dsimp only
    have hdrop : (s ++ x).drop ((s ++ x).length - (taps.length - 1))
        = x.drop (x.length - (taps.length - 1)) := drop_state_append s x _ hs hx
    have hout : convValidLS (s ++ x) taps
          ++ (convValidLS (x.drop (x.length - (taps.length - 1)) ++ bs.flatten) taps).take
              bs.flatten.length
        = (convValidLS (s ++ (x :: bs).flatten) taps).take (x :: bs).flatten.length := by
      rw [List.flatten_cons, ← List.append_assoc]
      have hlen1 : (convValidLS (s ++ x) taps).length = x.length := by
        rw [length_convValidLS, List.length_append, hs]
        omega
      by_cases hJ : bs.flatten.length = 0
      · have hFnil : bs.flatten = [] := List.length_eq_zero.mp hJ
        rw [hFnil]
        simp only [List.append_nil, List.length_nil, List.take_zero, List.length_append]
        rw [List.take_of_length_le (le_of_eq hlen1)]
      · rw [convValidLS_append (s ++ x) bs.flatten taps (by omega)
          (by rw [List.length_append, hs]; omega) (by omega)]
        rw [hdrop]
        have htake : x.length + bs.flatten.length
            = (convValidLS (s ++ x) taps).length + bs.flatten.length := by rw [hlen1]
        rw [List.length_append, htake, List.take_append]
    have hstate : (x.drop (x.length - (taps.length - 1)) ++ bs.flatten).drop
          ((x.drop (x.length - (taps.length - 1)) ++ bs.flatten).length - (taps.length - 1))
        = (s ++ (x :: bs).flatten).drop ((s ++ (x :: bs).flatten).length - (taps.length - 1)) := by
      rw [List.flatten_cons]
      rw [drop_state_append s (x ++ bs.flatten) _ hs
        (by rw [List.length_append]; omega)]
      rw [← List.drop_append_of_le_length (by omega : x.length - (taps.length - 1) ≤ x.length),
        List.drop_drop]
      congr 1
      simp only [List.length_append, List.length_drop]
      omega
    rw [hout, hstate]

theorem convValidLS_drop_state (z sig taps : List α) (hz : z.length = taps.length - 1)
    (_hN : 1 ≤ taps.length) (hL : taps.length ≤ sig.length) :
    (convValidLS (z ++ sig) taps).drop (taps.length - 1) = convValidLS sig taps := by
  apply List.ext_getElem
  · simp [length_convValidLS]
    omega
  · intro n hn1 hn2
    rw [List.getElem_drop, getElem_convValidLS, getElem_convValidLS]
    have hw : List.drop (taps.length - 1 + n) (z ++ sig) = List.drop n sig := by
      have hz2 : taps.length - 1 + n = z.length + n := by omega
      rw [hz2, List.drop_append]
    rw [hw]

/-! ## Receive-loop lemmas -/

theorem rxStep_ok_normal (st : RxState) (rate : ℚ) (o : RxObs)
    (he : o.error_code = RxError.none) (h : st.had_an_overflow = false) :
    rxStep rate st o = { st with num_rx_samps := st.num_rx_samps + o.nrecv } := by
  unfold rxStep
  rw [he]
  simp [h]

theorem rxStep_ok_resolve (st : RxState) (rate : ℚ) (o : RxObs)
    (he : o.error_code = RxError.none) (h : st.had_an_overflow = true) :
    (rxStep rate st o).num_rx_dropped
        = st.num_rx_dropped + to_ticks (o.time_spec - st.last_overflow) rate ∧
    (rxStep rate st o).had_an_overflow = false := by
  unfold rxStep
  rw [he]
  simp [h]

theorem ok_run_preserves (rate : ℚ) :
    ∀ (oks : List RxObs) (st : RxState),
      (∀ o ∈ oks, o.error_code = RxError.none) → st.had_an_overflow = false →
      (rxRun rate st oks).num_rx_dropped = st.num_rx_dropped ∧
      (rxRun rate st oks).had_an_overflow = false
  | [], st, _, h => by simp [rxRun, h]
  | o :: oks, st, hok, h => by
    have hstep := rxStep_ok_normal st rate o (hok o (by simp)) h
    have hrec := ok_run_preserves rate oks { st with num_rx_samps := st.num_rx_samps + o.nrecv }
      (fun o2 ho2 => hok o2 (by simp [ho2])) h
    simp only [rxRun, List.foldl_cons] at hrec ⊢
    rw [hstep]
    exact hrec

theorem rxCountersLE_refl (a : RxState) : rxCountersLE a a := by
  unfold rxCountersLE
  exact ⟨le_refl _, le_refl _, le_refl _, le_refl _, le_refl _, le_refl _⟩

theorem rxCountersLE_trans {a b c : RxState} (h1 : rxCountersLE a b)
    (h2 : rxCountersLE b c) : rxCountersLE a c := by
  unfold rxCountersLE at *
  exact ⟨le_trans h1.1 h2.1, le_trans h1.2.1 h2.2.1, le_trans h1.2.2.1 h2.2.2.1,
    le_trans h1.2.2.2.1 h2.2.2.2.1, le_trans h1.2.2.2.2.1 h2.2.2.2.2.1,
    le_trans h1.2.2.2.2.2 h2.2.2.2.2.2⟩

theorem to_ticks_nonneg (secs rate : ℚ) (h1 : 0 ≤ secs) (h2 : 0 ≤ rate) :
    0 ≤ to_ticks secs rate := by
  unfold to_ticks
  rw [round_eq]
  have hm : (0 : ℚ) ≤ secs * rate := mul_nonneg h1 h2
  exact Int.floor_nonneg.mpr (by linarith)

theorem rxStep_countersLE (st : RxState) (rate : ℚ) (o : RxObs) (hr : 0 ≤ rate)
    (hts : st.had_an_overflow = true → st.last_overflow ≤ o.time_spec) :
    rxCountersLE st (rxStep rate st o) := by
  unfold rxStep rxCountersLE
  cases he : o.error_code <;> dsimp only
  case none =>
    by_cases hov : st.had_an_overflow
    · rw [if_pos hov]
      dsimp only
      have hnn := to_ticks_nonneg (o.time_spec - st.last_overflow) rate
        (by have := hts hov; linarith) hr
      exact ⟨by omega, by omega, le_refl _, le_refl _, le_refl _, le_refl _⟩
    · rw [if_neg hov]
      dsimp only
      exact ⟨by omega, le_refl _, le_refl _, le_refl _, le_refl _, le_refl _⟩
  case overflow =>
    by_cases hsq : o.out_of_sequence <;> simp [hsq]
  case late =>
    exact ⟨by omega, le_refl _, le_refl _, le_refl _, le_refl _, by omega⟩
  case timeout =>
    exact ⟨by omega, le_refl _, le_refl _, le_refl _, by omega, le_refl _⟩
  case other =>
    exact ⟨by omega, le_refl _, le_refl _, le_refl _, le_refl _, le_refl _⟩

theorem rxStep_last_cases (st : RxState) (rate : ℚ) (o : RxObs) :
    (rxStep rate st o).had_an_overflow = true →
      (rxStep rate st o).last_overflow = o.time_spec ∨
      ((rxStep rate st o).last_overflow = st.last_overflow ∧ st.had_an_overflow = true) := by
  unfold rxStep
  cases he : o.error_code <;> dsimp only
  case none =>
    by_cases hov : st.had_an_overflow
    · rw [if_pos hov]
      intro hfalse
      exact absurd hfalse (by simp)
    · rw [if_neg hov]
      intro htrue
      exact absurd htrue (by simpa using hov)
  case overflow =>
    by_cases hsq : o.out_of_sequence <;> simp [hsq]
  case late => intro htrue; exact Or.inr ⟨rfl, htrue⟩
  case timeout => intro htrue; exact Or.inr ⟨rfl, htrue⟩
  case other => intro htrue; exact Or.inr ⟨rfl, htrue⟩

theorem rxRun_mono_aux (rate : ℚ) (hr : 0 ≤ rate) :
    ∀ (obs rest : List RxObs) (st : RxState),
      ((obs ++ rest).map (fun o => o.time_spec)).Sorted (· ≤ ·) →
      (st.had_an_overflow = true → ∀ o ∈ obs ++ rest, st.last_overflow ≤ o.time_spec) →
      rxCountersLE st (rxRun rate st obs) ∧
      ((rxRun rate st obs).had_an_overflow = true →
        ∀ o ∈ rest, (rxRun rate st obs).last_overflow ≤ o.time_spec)
  | [], rest, st, _, hinv =>
    ⟨rxCountersLE_refl st, fun h o ho => hinv h o (by simpa using ho)⟩
  | o :: obs, rest, st, hsort, hinv => by
    have hstep := rxStep_countersLE st rate o hr (fun h => hinv h o (by simp))
    have hsort2 : ((obs ++ rest).map (fun o2 => o2.time_spec)).Sorted (· ≤ ·) := by
      simp only [List.cons_append, List.map_cons, List.sorted_cons] at hsort
      exact hsort.2
    have hhead : ∀ o2 ∈ obs ++ rest, o.time_spec ≤ o2.time_spec := by
      intro o2 ho2
      simp only [List.cons_append, List.map_cons, List.sorted_cons] at hsort
      exact hsort.1 o2.time_spec (List.mem_map_of_mem (fun o3 => o3.time_spec) ho2)
    have hinv2 : (rxStep rate st o).had_an_overflow = true →
        ∀ o2 ∈ obs ++ rest, (rxStep rate st o).last_overflow ≤ o2.time_spec := by
      intro h2 o2 ho2
      rcases rxStep_last_cases st rate o h2 with hL | ⟨hL, hOld⟩
      · rw [hL]
        exact hhead o2 ho2
      · rw [hL]
        exact hinv hOld o2 (by rw [List.cons_append]; exact List.mem_cons_of_mem o ho2)
    have hrec := rxRun_mono_aux rate hr obs rest (rxStep rate st o) hsort2 hinv2
    have hfold : rxRun rate st (o :: obs) = rxRun rate (rxStep rate st o) obs := by
      simp [rxRun]
    rw [hfold]
    exact ⟨rxCountersLE_trans hstep hrec.1, hrec.2⟩

theorem bench_loop_states (rate : ℚ) :
    ∀ (k : ℕ) (obs : List RxObs) (st : RxState), k ≤ obs.length →
      (benchStep rate)^[k] ⟨st, obs, Option.none⟩
        = ⟨rxRun rate st (obs.take k), obs.drop k, Option.none⟩
  | 0, obs, st, _ => by simp [rxRun]
  | k + 1, obs, st, hk => by
    cases obs with
    | nil => exact absurd hk (by simp)
    | cons o rest =>
      rw [Function.iterate_succ_apply]
      have hstep : benchStep rate ⟨st, o :: rest, Option.none⟩
          = ⟨rxStep rate st o, rest, Option.none⟩ := rfl
      rw [hstep, bench_loop_states rate k rest (rxStep rate st o) (by simpa using hk)]
      simp [rxRun, List.take_succ_cons, List.drop_succ_cons, List.foldl_cons]

/-! ## Claim theorems -/

/-- Claim C1, counterexample to the claim as stated.  With a kernel of length
`N = 1` the state-saving slice `x[-0:]` is the whole batch and the assignment
into the empty state array fails, so a fresh filter fed the one-batch
partition `[[1,2]]` raises instead of returning the valid convolution; and
with `taps = [1,1,1]` and the single batch `[1,2]` (length `N - 1`, total
signal length `N - 1 < N`), the streaming output after discarding the first
`N - 1` samples is empty while the valid convolution of the whole signal is
`[3,3]`. -/
theorem fir_continuity_cex :
    fir_filter.init [(1 : ℤ)] = some ⟨[1], []⟩ ∧
    ¬ ((fir_filter.run (⟨[(1 : ℤ)], []⟩ : fir_filter ℤ) [[1, 2]]).map
        (fun p => p.1.drop 0) = some (convValid ([1, 2] : List ℤ) [1])) ∧
    ¬ ((fir_filter.run (⟨[(1 : ℤ), 1, 1], [0, 0]⟩ : fir_filter ℤ) [[1, 2]]).map
        (fun p => p.1.drop 2) = some (convValid ([1, 2] : List ℤ) [1, 1, 1])) := by
  refine ⟨by decide, by decide, by decide⟩

/-- Claim C1, amended.  For every kernel of length `N ≥ 2` and every signal of
total length `≥ N` partitioned into consecutive batches of length `≥ N - 1`,
feeding the batches in order to a freshly constructed filter succeeds, and the
concatenated outputs with the first `N - 1` samples discarded equal the
valid-mode convolution of the whole signal with the kernel. -/
theorem fir_stream_continuity (taps : List α) (bs : List (List α))
    (hN : 2 ≤ taps.length) (hb : ∀ b ∈ bs, taps.length - 1 ≤ b.length)
    (hL : taps.length ≤ bs.flatten.length) :
    fir_filter.init taps = some ⟨taps, List.replicate (taps.length - 1) 0⟩ ∧
    (fir_filter.run ⟨taps, List.replicate (taps.length - 1) 0⟩ bs).map
        (fun p => p.1.drop (taps.length - 1))
      = some (convValid bs.flatten taps) := by
  constructor
  · unfold fir_filter.init
    rw [if_neg (by omega)]
  · rw [fir_run_eq taps hN bs (List.replicate (taps.length - 1) 0) (by simp) hb]
    simp only [Option.map_some']
    have htake : (convValidLS (List.replicate (taps.length - 1) 0 ++ bs.flatten) taps).length
        = bs.flatten.length := by
      rw [length_convValidLS, List.length_append, List.length_replicate]
      omega
    rw [List.take_of_length_le (le_of_eq htake)]
    rw [convValidLS_drop_state _ _ _ (by simp) (by omega) hL]
    unfold convValid
    rw [if_neg (by omega)]

/-- Claim C1, witness: the concrete scenario of the spec with
`taps = [1,1,1]` and batches `[1,2,3,4]`, `[5,6,7,8]`. -/
theorem fir_stream_continuity_witness :
    (∀ b ∈ [[(1 : ℤ), 2, 3, 4], [5, 6, 7, 8]], ([(1 : ℤ), 1, 1].length - 1 : ℕ) ≤ b.length) ∧
    (fir_filter.run (⟨[(1 : ℤ), 1, 1], List.replicate 2 0⟩ : fir_filter ℤ)
        [[1, 2, 3, 4], [5, 6, 7, 8]]).map (fun p => p.1.drop 2)
      = some (convValid ([1, 2, 3, 4, 5, 6, 7, 8] : List ℤ) [1, 1, 1]) :=
  ⟨by decide,
    (fir_stream_continuity [(1 : ℤ), 1, 1] [[1, 2, 3, 4], [5, 6, 7, 8]]
      (by norm_num) (by decide) (by decide)).2⟩

/-- Claim C3: what the code actually does on batches shorter than `N - 1`.
A fresh length-5 kernel filter fed the length-1 batch `[9]` SUCCEEDS: numpy
broadcasts the single sample over the whole state buffer, silently replacing
the state `[0,0,0,0]` with `[9,9,9,9]` (the FIXME in the source); fed the
length-3 batch `[1,2,3]` it raises an untyped broadcast error (modelled
`none`), not a typed InsufficientBatchSize.  The claim asks for a typed
failure with no state mutation in both cases. -/
theorem short_batch_code_behavior :
    fir_filter.init ([1, 1, 1, 1, 1] : List ℤ) = some ⟨[1, 1, 1, 1, 1], [0, 0, 0, 0]⟩ ∧
    fir_filter.filter (⟨[1, 1, 1, 1, 1], [0, 0, 0, 0]⟩ : fir_filter ℤ) [9]
      = some ([9], ⟨[1, 1, 1, 1, 1], [9, 9, 9, 9]⟩) ∧
    fir_filter.filter (⟨[1, 1, 1, 1, 1], [0, 0, 0, 0]⟩ : fir_filter ℤ) [1, 2, 3] = none :=
  ⟨by decide, by decide, by decide⟩

/-- Claim C5: the code diverges from the claim on complex batches.  Because
the state buffer is a real-valued array, filtering the complex batches
`[i]` then `[0]` with taps `[1,1]` stores only the real part of the retained
sample and yields second output `[0]`, while the same algorithm with a
complex-typed state (how real batches are treated) yields `[i]`.  Complex
batches are therefore not filtered the same way as real ones. -/
theorem complex_state_divergence :
    fir_filterC.run ⟨[1, 1], [0]⟩ [[⟨0, 1⟩], [⟨0, 0⟩]]
      = some ([⟨0, 1⟩, ⟨0, 0⟩], ⟨[1, 1], [0]⟩) ∧
    fir_filter.run (⟨[1, 1], [⟨0, 0⟩]⟩ : fir_filter GaussianInt) [[⟨0, 1⟩], [⟨0, 0⟩]]
      = some ([⟨0, 1⟩, ⟨0, 1⟩], ⟨[1, 1], [⟨0, 0⟩]⟩) ∧
    ([⟨0, 1⟩, ⟨0, 0⟩] : List GaussianInt) ≠ [⟨0, 1⟩, ⟨0, 1⟩] :=
  ⟨by decide, by decide, by decide⟩

/-- Claim C7: after every successful filter call on a well-formed filter
whose batch has length at least `N - 1`, the state buffer holds exactly the
last `N - 1` samples of the fed batch. -/
theorem state_holds_last_fed (f : fir_filter α) (x out : List α) (f1 : fir_filter α)
    (hwf : f.previous_batch.length = f.taps.length - 1)
    (hx : f.taps.length - 1 ≤ x.length)
    (h : f.filter x = some (out, f1)) :
    f1.previous_batch = x.drop (x.length - (f.taps.length - 1)) := by
  unfold fir_filter.filter at h
  split at h
  · exact absurd h (by simp)
  case isFalse hg =>
    split at h
    case h_2 heq => exact absurd h (by simp)
    case h_1 s heq =>
      simp only [Option.some.injEq, Prod.mk.injEq] at h
      rw [← h.2]
      by_cases hN1 : f.taps.length - 1 = 0
      · have hp : f.previous_batch = [] := List.length_eq_zero.mp (by omega)
        have hxne : x.length ≠ 0 := by
          intro h0
          exact hg (Or.inl (by rw [List.length_append]; omega))
        unfold negTail at heq
        rw [if_pos hN1, hp] at heq
        unfold sliceAssign at heq
        rw [if_neg (by simpa using hxne)] at heq
        by_cases hx1 : x.length = 1
        · rw [if_pos hx1] at heq
          simp only [Option.some.injEq] at heq
          rw [← heq, hN1, Nat.sub_zero, List.drop_length]
          simp
        · rw [if_neg hx1] at heq
          exact absurd heq (by simp)
      · unfold negTail at heq
        rw [if_neg hN1] at heq
        unfold sliceAssign at heq
        rw [if_pos (by rw [List.length_drop, hwf]; omega)] at heq
        simp only [Option.some.injEq] at heq
        rw [← heq]

/-- Claim C7, witness: taps `[1,1,1]`, first batch `[1,2,3,4]`, state after
the call is `[3,4]`. -/
theorem state_holds_last_fed_witness :
    (⟨[(1 : ℤ), 1, 1], [0, 0]⟩ : fir_filter ℤ).filter [1, 2, 3, 4]
      = some ([1, 3, 6, 9], ⟨[1, 1, 1], [3, 4]⟩) ∧
    (⟨[(1 : ℤ), 1, 1], [3, 4]⟩ : fir_filter ℤ).previous_batch
      = [(1 : ℤ), 2, 3, 4].drop ([1, 2, 3, 4].length - (([(1 : ℤ), 1, 1] : List ℤ).length - 1)) :=
  ⟨by decide,
    state_holds_last_fed (⟨[(1 : ℤ), 1, 1], [0, 0]⟩ : fir_filter ℤ) [1, 2, 3, 4]
      [1, 3, 6, 9] ⟨[1, 1, 1], [3, 4]⟩ (by decide) (by decide) (by decide)⟩

/-- Claim C2, counterexample to the claim as stated.  In the status sequence
Ok, Overflow at t=10, Overflow at t=12, Ok at t=15 with tick rate 1000, the
code records the SECOND overflow timestamp (line 117 runs on every overflow),
so the drop estimate is 3000 (elapsed from t=12), not the claimed 5000. -/
theorem overflow_onset_cex :
    (rxRun 1000 initRxState
      [⟨0, RxError.none, false, 0⟩, ⟨0, RxError.overflow, false, 10⟩,
       ⟨0, RxError.overflow, false, 12⟩, ⟨0, RxError.none, false, 15⟩]).num_rx_overruns = 2 ∧
    (rxRun 1000 initRxState
      [⟨0, RxError.none, false, 0⟩, ⟨0, RxError.overflow, false, 10⟩,
       ⟨0, RxError.overflow, false, 12⟩, ⟨0, RxError.none, false, 15⟩]).num_rx_dropped = 3000 ∧
    (rxRun 1000 initRxState
      [⟨0, RxError.none, false, 0⟩, ⟨0, RxError.overflow, false, 10⟩,
       ⟨0, RxError.overflow, false, 12⟩, ⟨0, RxError.none, false, 15⟩]).num_rx_dropped ≠ 5000 := by
  norm_num [rxRun, rxStep, initRxState, to_ticks, round_eq]

/-- Claim C2, amended.  When an Overflow status is observed while an overflow
episode is already unresolved, the recorded onset timestamp IS updated to the
timestamp of the new overflow (the earliest onset is not kept); the episode
stays unresolved and the drop estimate is unchanged until the resolving Ok,
whose elapsed time is therefore measured from the latest overflow. -/
theorem overflow_onset_updated (st : RxState) (rate : ℚ) (o : RxObs)
    (_hov : st.had_an_overflow = true) (he : o.error_code = RxError.overflow) :
    (rxStep rate st o).last_overflow = o.time_spec ∧
    (rxStep rate st o).had_an_overflow = true ∧
    (rxStep rate st o).num_rx_dropped = st.num_rx_dropped := by
  unfold rxStep
  rw [he]
  by_cases hs : o.out_of_sequence <;> simp [hs]

/-- Claim C2, witness: the second overflow of the scenario overwrites the
onset timestamp with t=12. -/
theorem overflow_onset_updated_witness :
    (rxStep 1000 initRxState ⟨0, RxError.overflow, false, 10⟩).had_an_overflow = true ∧
    (rxStep 1000 (rxStep 1000 initRxState ⟨0, RxError.overflow, false, 10⟩)
        ⟨0, RxError.overflow, false, 12⟩).last_overflow = 12 :=
  ⟨rfl,
    (overflow_onset_updated (rxStep 1000 initRxState ⟨0, RxError.overflow, false, 10⟩)
      1000 ⟨0, RxError.overflow, false, 12⟩ rfl rfl).1⟩

/-- Claim C4: an overflow episode opened from the normal state by one
Overflow at t0 and resolved by an Ok after elapsed time dt increases the drop
estimate by round(dt * rate), exactly once; any further all-Ok observations
leave the estimate unchanged. -/
theorem drop_estimate_once (st : RxState) (rate t0 dt : ℚ) (b : Bool) (n0 n1 : ℕ)
    (_h : st.had_an_overflow = false) :
    (rxStep rate (rxStep rate st ⟨n0, RxError.overflow, b, t0⟩)
        ⟨n1, RxError.none, false, t0 + dt⟩).num_rx_dropped
      = st.num_rx_dropped + round (dt * rate) ∧
    (rxStep rate (rxStep rate st ⟨n0, RxError.overflow, b, t0⟩)
        ⟨n1, RxError.none, false, t0 + dt⟩).had_an_overflow = false ∧
    (∀ (oks : List RxObs), (∀ o ∈ oks, o.error_code = RxError.none) →
      (rxRun rate (rxStep rate (rxStep rate st ⟨n0, RxError.overflow, b, t0⟩)
          ⟨n1, RxError.none, false, t0 + dt⟩) oks).num_rx_dropped
        = st.num_rx_dropped + round (dt * rate)) := by
  have hA : (rxStep rate st ⟨n0, RxError.overflow, b, t0⟩).had_an_overflow = true ∧
      (rxStep rate st ⟨n0, RxError.overflow, b, t0⟩).last_overflow = t0 ∧
      (rxStep rate st ⟨n0, RxError.overflow, b, t0⟩).num_rx_dropped = st.num_rx_dropped := by
    unfold rxStep
    cases b <;> simp
  obtain ⟨hB, hC⟩ := rxStep_ok_resolve (rxStep rate st ⟨n0, RxError.overflow, b, t0⟩) rate
    ⟨n1, RxError.none, false, t0 + dt⟩ rfl hA.1
  have hdrop : (rxStep rate (rxStep rate st ⟨n0, RxError.overflow, b, t0⟩)
      ⟨n1, RxError.none, false, t0 + dt⟩).num_rx_dropped
      = st.num_rx_dropped + round (dt * rate) := by
    rw [hB, hA.2.2, hA.2.1]
    unfold to_ticks
    rw [show t0 + dt - t0 = dt by ring]
  refine ⟨hdrop, hC, fun oks hok => ?_⟩
  rw [(ok_run_preserves rate oks _ hok hC).1, hdrop]

/-- Claim C4, witness: overflow at t=10 resolved at t=15 with rate 1000 adds
round(5 * 1000) to the drop estimate. -/
theorem drop_estimate_once_witness :
    initRxState.had_an_overflow = false ∧
    (rxStep 1000 (rxStep 1000 initRxState ⟨0, RxError.overflow, false, 10⟩)
        ⟨0, RxError.none, false, 10 + 5⟩).num_rx_dropped
      = initRxState.num_rx_dropped + round ((5 : ℚ) * 1000) :=
  ⟨rfl, (drop_estimate_once initRxState 1000 10 5 false 0 0 rfl).1⟩

/-- Claim C6, counterexample to the claim as stated: an Unknown status with a
zero recv count leaves the loop state COMPLETELY unchanged, so no
unknown-error counter is incremented; the code has no such counter (the final
else branch only logs). -/
theorem unknown_status_cex :
    rxStep 1000 initRxState ⟨0, RxError.other, false, 0⟩ = initRxState := rfl

/-- Claim C6, amended.  An Unknown status never fails or aborts the monitor
(the step is total): its only effect is the unconditional addition of the
recv sample count to samples received, and no error counter changes. -/
theorem unknown_status_absorbed (st : RxState) (rate : ℚ) (o : RxObs)
    (he : o.error_code = RxError.other) :
    rxStep rate st o = { st with num_rx_samps := st.num_rx_samps + o.nrecv } := by
  unfold rxStep
  rw [he]

/-- Claim C6, witness: an Unknown status with 7 received samples only moves
the samples-received counter. -/
theorem unknown_status_absorbed_witness :
    rxStep 1000 initRxState ⟨7, RxError.other, false, 3⟩
      = { initRxState with num_rx_samps := 7 } :=
  unknown_status_absorbed initRxState 1000 ⟨7, RxError.other, false, 3⟩ rfl

/-- Claim C8, counterexample to the claim as stated: a Timeout observation
with 5 received samples increases the samples-received counter (line 83 runs
before the error dispatch), so non-Ok statuses do not leave it unchanged. -/
theorem samples_received_cex :
    (rxStep 1000 initRxState ⟨5, RxError.timeout, false, 0⟩).num_rx_samps = 5 ∧
    initRxState.num_rx_samps = 0 ∧
    (rxStep 1000 initRxState ⟨5, RxError.timeout, false, 0⟩).num_rx_samps
      ≠ initRxState.num_rx_samps :=
  ⟨rfl, rfl, by decide⟩

/-- Claim C8, amended.  EVERY observe call adds the recv sample count to
samples received, whatever the status code is: the increment happens before
the error dispatch and no branch undoes it. -/
theorem samples_received_every_call (st : RxState) (rate : ℚ) (o : RxObs) :
    (rxStep rate st o).num_rx_samps = st.num_rx_samps + o.nrecv := by
  unfold rxStep
  cases he : o.error_code <;> dsimp only <;> first
    | rfl
    | (split <;> rfl)

/-- Claim C9, counterexample to the claim as stated: if an Ok carrying a
timestamp EARLIER than the pending overflow onset resolves the episode, the
elapsed time is negative and the drop-estimate counter decreases (here from 0
to -5000), so not every counter is non-decreasing over every observation
sequence. -/
theorem counters_decrease_cex :
    (rxRun 1000 initRxState [⟨0, RxError.overflow, false, 10⟩]).num_rx_dropped = 0 ∧
    (rxRun 1000 initRxState
      [⟨0, RxError.overflow, false, 10⟩, ⟨0, RxError.none, false, 5⟩]).num_rx_dropped = -5000 ∧
    ¬ ((rxRun 1000 initRxState [⟨0, RxError.overflow, false, 10⟩]).num_rx_dropped
        ≤ (rxRun 1000 initRxState
            [⟨0, RxError.overflow, false, 10⟩, ⟨0, RxError.none, false, 5⟩]).num_rx_dropped) := by
  norm_num [rxRun, rxStep, initRxState, to_ticks, round_eq]

/-- Claim C9, amended.  For a non-negative tick rate and observations whose
timestamps are non-decreasing, every statistic counter is non-decreasing:
after any further observations the counters are at least their earlier
values. -/
theorem counters_monotone_sorted (rate : ℚ) (pre post : List RxObs) (hr : 0 ≤ rate)
    (hsort : ((pre ++ post).map (fun o : RxObs => o.time_spec)).Sorted (· ≤ ·)) :
    rxCountersLE (rxRun rate initRxState pre) (rxRun rate initRxState (pre ++ post)) := by
  have h1 := rxRun_mono_aux rate hr pre post initRxState hsort
    (fun h => absurd h (by simp [initRxState]))
  have hsortpost : ((post ++ ([] : List RxObs)).map
      (fun o : RxObs => o.time_spec)).Sorted (· ≤ ·) := by
    rw [List.append_nil]
    rw [List.map_append] at hsort
    exact List.Pairwise.sublist
      (List.sublist_append_right (pre.map (fun o : RxObs => o.time_spec)) _) hsort
  have hinvpost : (rxRun rate initRxState pre).had_an_overflow = true →
      ∀ o ∈ post ++ [], (rxRun rate initRxState pre).last_overflow ≤ o.time_spec := by
    intro h o ho
    exact h1.2 h o (by simpa using ho)
  have h2 := rxRun_mono_aux rate hr post [] (rxRun rate initRxState pre) hsortpost hinvpost
  have hsplit : rxRun rate initRxState (pre ++ post)
      = rxRun rate (rxRun rate initRxState pre) post := by
    unfold rxRun
    rw [List.foldl_append]
  rw [hsplit]
  exact h2.1

/-- Claim C9, witness: an overflow at t=10 followed by an Ok at t=15 with
rate 1000 only moves the counters upward. -/
theorem counters_monotone_sorted_witness :
    (0 : ℚ) ≤ 1000 ∧
    rxCountersLE (rxRun 1000 initRxState [⟨0, RxError.overflow, false, 10⟩])
      (rxRun 1000 initRxState
        ([⟨0, RxError.overflow, false, 10⟩] ++ [⟨4, RxError.none, false, 15⟩])) :=
  ⟨by norm_num,
    counters_monotone_sorted 1000 [⟨0, RxError.overflow, false, 10⟩]
      [⟨4, RxError.none, false, 15⟩] (by norm_num)
      (by simp [List.sorted_cons]; norm_num)⟩

/-- Claim C10: in the small-step model of the receive thread, the shared
statistics dictionary stays empty at every point up to and including the
moment the loop observes the stop event; one step later all six counters are
published together, and what is published is exactly the net effect
`benchmark_rx_rate` of the whole run. -/
theorem stats_published_after_loop (rate : ℚ) (obs : List RxObs) :
    (∀ k, k ≤ obs.length → ((benchStep rate)^[k] (benchInit obs)).rx_statistics = Option.none) ∧
    ((benchStep rate)^[obs.length + 1] (benchInit obs)).rx_statistics
      = some (publishStats (rxRun rate initRxState obs)) ∧
    publishStats (rxRun rate initRxState obs) = benchmark_rx_rate rate obs := by
  refine ⟨?_, ?_, rfl⟩
  · intro k hk
    have hinit : benchInit obs = ⟨initRxState, obs, Option.none⟩ := rfl
    rw [hinit, bench_loop_states rate k obs initRxState hk]
  · rw [Function.iterate_succ_apply']
    have hinit : benchInit obs = ⟨initRxState, obs, Option.none⟩ := rfl
    rw [hinit, bench_loop_states rate obs.length obs initRxState (le_refl _)]
    rw [List.take_length, List.drop_length]
    rfl

/-- Claim C10, witness: a one-iteration run publishes nothing while the loop
is still running and publishes the six counters right after it exits. -/
theorem stats_published_after_loop_witness :
    ((benchStep 1000)^[1] (benchInit [⟨3, RxError.none, false, 1⟩])).rx_statistics
      = Option.none ∧
    ((benchStep 1000)^[2] (benchInit [⟨3, RxError.none, false, 1⟩])).rx_statistics
      = some (publishStats (rxRun 1000 initRxState [⟨3, RxError.none, false, 1⟩])) :=
  ⟨(stats_published_after_loop 1000 [⟨3, RxError.none, false, 1⟩]).1 1 (by norm_num),
    (stats_published_after_loop 1000 [⟨3, RxError.none, false, 1⟩]).2.1⟩

end PySdr
